import Mathlib

/-!
Verification of the options-chain ETL pipeline (schwab_options_data.py).

The development shallowly embeds the three pipeline stages and the
per-ticker orchestration:

* values of the dynamic JSON/dataframe cells become an inductive `Value`
  (decimals are carried as rationals; no floating-point arithmetic is
  ever performed by the claims under check, only coercion between the
  declared column families);
* a raw contract record (a Python dict) becomes an association list
  from field names to values;
* a polars dataframe becomes an ordered list of named columns;
* fallible stages return `Except`, and the fixed rate-limit /
  backoff sleeps and the traceback log become explicit effect fields;
* the cooperative per-ticker concurrency of asyncio becomes an explicit
  resumption schedule over the per-ticker tasks.
-/

namespace SchwabOptionsData

/-- Dynamic cell values of the JSON payload and of the dataframe columns.
Decimal payloads are carried as rationals; datetimes as an opaque
integer encoding. -/
inductive Value where
  | null : Value
  | bool (b : Bool) : Value
  | int (n : Int) : Value
  | float (q : ℚ) : Value
  | str (s : String) : Value
  | datetime (t : Int) : Value
deriving DecidableEq

/-- One raw option-contract record: a Python dict from field names to values. -/
abbrev RawContract := List (String × Value)

/-- One group-by-expiration map of the API response:
expiration date string, then strike string, then the list of contract
entries at that strike. -/
abbrev ExpMap := List (String × List (String × List RawContract))

instance rawContractDecEq : DecidableEq RawContract := inferInstance

instance strikeListDecEq : DecidableEq (List (String × List RawContract)) := inferInstance

instance expMapDecEq : DecidableEq ExpMap := inferInstance

/-- The options-chain HTTP response: a status code and, when the body is
well formed JSON carrying both top-level maps, the call map and the put
map.  A body of none stands for response.json() raising or the
expected top-level keys being absent (both land in the same except
branch of the source). -/
structure OptionChainResponse where
  status_code : Nat
  body : Option (ExpMap × ExpMap)

instance : DecidableEq OptionChainResponse := fun a b =>
  decidable_of_iff (a.status_code = b.status_code ∧ a.body = b.body)
    (by cases a; cases b; simp)

/-- Outcome of the one get_option_chain network call made by extract:
either the awaited call itself raises, or a response arrives. -/
inductive ApiOutcome where
  | networkError : ApiOutcome
  | response (r : OptionChainResponse) : ApiOutcome
deriving DecidableEq

/-- Flattening of the strikes of one expiration: the source indexes
contract[expiry][strike][0], so an empty entry list raises IndexError,
which the surrounding try/except turns into the absence sentinel. -/
def flattenStrikes : List (String × List RawContract) → Option (List RawContract)
  | [] => some []
  | st :: rest =>
    match st.2 with
    | [] => none
    | entry :: _ =>
      match flattenStrikes rest with
      | none => none
      | some l => some (entry :: l)

/-- Flattening of one group-by-expiration map, expiration by expiration. -/
def flattenExpMap : ExpMap → Option (List RawContract)
  | [] => some []
  | ex :: rest =>
    match flattenStrikes ex.2 with
    | none => none
    | some here =>
      match flattenExpMap rest with
      | none => none
      | some there => some (here ++ there)

/-- What one call of extract does: its return value (none is the
Python None absence sentinel), the sleeps it performed in seconds and
in order, whether traceback.print_exc ran, and how many API requests
were issued. -/
structure ExtractEffect where
  result : Option (List RawContract)
  sleeps : List ℚ
  loggedTraceback : Bool
  requests : Nat
deriving DecidableEq

/-- The extract stage.  On a 429 status it prints, sleeps 5 seconds and
falls off the end of the function (returning None); on success it
flattens the call map then the put map and sleeps 0.25 seconds; any
exception (network error, malformed body, empty strike entry) is caught,
the traceback printed, and after a 1 second sleep the function again
returns None. -/
def extract : ApiOutcome → ExtractEffect
  | ApiOutcome.networkError => ⟨none, [1], true, 1⟩
  | ApiOutcome.response r =>
    if r.status_code = 429 then
      ⟨none, [5], false, 1⟩
    else
      match r.body with
      | none => ⟨none, [1], true, 1⟩
      | some (cm, pm) =>
        match flattenExpMap cm, flattenExpMap pm with
        | some cs, some ps => ⟨some (cs ++ ps), [1/4], false, 1⟩
        | some _, none => ⟨none, [1], true, 1⟩
        | none, _ => ⟨none, [1], true, 1⟩

/-- Number of strike entries summed over all expirations of one map. -/
def strikeCount (m : ExpMap) : Nat := (m.map (fun ex => ex.2.length)).sum

/-- A map is well formed when every strike holds at least one contract
entry. -/
def wellFormedMap (m : ExpMap) : Prop := ∀ ex ∈ m, ∀ st ∈ ex.2, st.2 ≠ []

instance (m : ExpMap) : Decidable (wellFormedMap m) := by
  unfold wellFormedMap; infer_instance

/-- Failures other than the rate-limit signal that extract can meet:
the network call raising, a malformed body, or an empty strike entry
list making the [0] index raise. -/
def otherFailure : ApiOutcome → Prop
  | ApiOutcome.networkError => True
  | ApiOutcome.response r =>
      r.status_code ≠ 429 ∧
        (r.body = none ∨
          ∃ cm pm, r.body = some (cm, pm) ∧
            (flattenExpMap cm = none ∨ flattenExpMap pm = none))

/-! ### The transform stage (polars shallow model) -/

/-- Sequential fail-fast traversal of a list under Except, as polars
evaluates a batch of expressions: the first failing element aborts the
whole computation. -/
def mapE {α β ε : Type} (f : α → Except ε β) : List α → Except ε (List β)
  | [] => Except.ok []
  | x :: xs =>
    match f x with
    | Except.error e => Except.error e
    | Except.ok y =>
      match mapE f xs with
      | Except.error e => Except.error e
      | Except.ok ys => Except.ok (y :: ys)

/-- A polars dataframe: ordered named columns, each a list of row values. -/
abbrev Frame := List (String × List Value)

/-- Dict lookup of one field of a record; pl.DataFrame fills keys that a
record does not supply with null. -/
def lookupField (r : RawContract) (k : String) : Value :=
  match r.find? (fun p => p.1 == k) with
  | some p => p.2
  | none => Value.null

/-- Column names of the frame built from a record sequence: the union of
the records' keys in order of first appearance (polars schema
inference over a sequence of dicts). -/
def frameKeys (records : List RawContract) : List String :=
  records.foldl
    (fun acc r => acc ++ (r.map Prod.fst).filter (fun k => !acc.contains k)) []

/-- pl.DataFrame over a sequence of dicts: one column per inferred key,
missing entries filled with null. -/
def buildFrame (records : List RawContract) : Frame :=
  (frameKeys records).map (fun k => (k, records.map (fun r => lookupField r k)))

/-- Errors that abort one transform call. -/
inductive TransformError where
  | columnNotFound (c : String) : TransformError
  | castFailed (c : String) : TransformError
  | keyNotString : TransformError
deriving DecidableEq

/-- Reading one named column of a frame; a missing name is polars
ColumnNotFoundError. -/
def getCol (f : Frame) (c : String) : Except TransformError (List Value) :=
  match f.find? (fun p => p.1 == c) with
  | some p => Except.ok p.2
  | none => Except.error (TransformError.columnNotFound c)

/-- df.select over a list of column names, in order. -/
def selectCols (f : Frame) (cols : List String) : Except TransformError Frame :=
  mapE (fun c => (getCol f c).map (fun vs => (c, vs))) cols

/-- Digit-string recognizer over the characters of a string. -/
def isDigits (cs : List Char) : Bool := !cs.isEmpty && cs.all Char.isDigit

/-- Numeric value of a digit string. -/
def natOfDigits (cs : List Char) : Nat :=
  cs.foldl (fun a c => a * 10 + (c.toNat - 48)) 0

/-- Parsing a digit string, failing on empty or non-digit input. -/
def parseNatChars (cs : List Char) : Option Nat :=
  if isDigits cs then some (natOfDigits cs) else none

/-- Parsing a signed integer string, as the strict polars str-to-Int64
cast does (a fractional string like 3.0 does not parse as an integer). -/
def parseIntChars : List Char → Option Int
  | '-' :: cs => (parseNatChars cs).map (fun m => -(m : Int))
  | '+' :: cs => (parseNatChars cs).map (fun m => (m : Int))
  | cs => (parseNatChars cs).map (fun m => (m : Int))

/-- Splitting a character list on a separator character. -/
def splitOnChar (sep : Char) : List Char → List (List Char)
  | [] => [[]]
  | c :: cs =>
    match splitOnChar sep cs with
    | [] => if c = sep then [[], [c]] else [[c]]
    | g :: gs => if c = sep then [] :: g :: gs else (c :: g) :: gs

/-- Parsing an unsigned decimal numeral (digits, optionally a point and
digits).  Exotic forms the underlying float parser would also accept
(exponents, inf, nan) are outside the payloads this model covers. -/
def parseUDec (cs : List Char) : Option ℚ :=
  match splitOnChar '.' cs with
  | [w] => (parseNatChars w).map (fun m => (m : ℚ))
  | [w, f] =>
    if isDigits w && isDigits f then
      some ((natOfDigits w : ℚ) + (natOfDigits f : ℚ) / ((10 : ℚ) ^ f.length))
    else none
  | _ => none

/-- Parsing a signed decimal numeral string, as the strict polars
str-to-Float64 cast does. -/
def parseDecimal (s : String) : Option ℚ :=
  match s.data with
  | '-' :: cs => (parseUDec cs).map (fun q => -q)
  | '+' :: cs => parseUDec cs
  | cs => parseUDec cs

/-- Truncation of a rational toward zero, as the polars Float64-to-Int64
cast truncates. -/
def truncQ (q : ℚ) : Int := if 0 ≤ q then ⌊q⌋ else ⌈q⌉

/-- Strict cast of one cell to Int64.  Nulls stay null; anything the
cast cannot represent aborts the batch (modelled as none). -/
def castInt64 : Value → Option Value
  | Value.null => some Value.null
  | Value.int n => some (Value.int n)
  | Value.bool b => some (Value.int (if b then 1 else 0))
  | Value.float q => some (Value.int (truncQ q))
  | Value.str s => (parseIntChars s.data).map Value.int
  | Value.datetime t => some (Value.int t)

/-- Strict cast of one cell to Float64. -/
def castFloat64 : Value → Option Value
  | Value.null => some Value.null
  | Value.int n => some (Value.float (n : ℚ))
  | Value.float q => some (Value.float q)
  | Value.bool b => some (Value.float (if b then 1 else 0))
  | Value.str s => (parseDecimal s).map Value.float
  | Value.datetime _ => none

/-- Strict cast of one cell to Boolean; polars cannot cast a string or
datetime cell to Boolean. -/
def castBoolean : Value → Option Value
  | Value.null => some Value.null
  | Value.bool b => some (Value.bool b)
  | Value.int n => some (Value.bool (decide (n ≠ 0)))
  | Value.float q => some (Value.bool (decide (q ≠ 0)))
  | Value.str _ => none
  | Value.datetime _ => none

/-- Calendar-date encoding of the leading YYYY-MM-DD of an ISO datetime
string, standing in for the datetime value str.to_datetime produces. -/
def parseDate (s : String) : Option Int :=
  match (splitOnChar '-' (s.data.takeWhile (fun c => !(c == 'T')))).map parseNatChars with
  | [some y, some m, some d] => some (((y * 10000 + m * 100 + d : Nat)) : Int)
  | _ => none

/-- The expirationDate conversion: str.to_datetime parses a string cell
and keeps nulls; on a non-string cell the str accessor itself fails. -/
def strToDatetime : Value → Option Value
  | Value.null => some Value.null
  | Value.str s => (parseDate s).map Value.datetime
  | _ => none

/-- The columns the transform stage selects, in source order. -/
def endColumns : List String :=
  ["putCall", "symbol", "description", "bid", "ask", "last", "mark", "bidSize",
   "askSize", "bidAskSize", "lastSize", "highPrice", "lowPrice", "openPrice",
   "closePrice", "totalVolume", "quoteTimeInLong", "netChange", "volatility",
   "delta", "gamma", "theta", "vega", "rho", "openInterest",
   "theoreticalOptionValue", "theoreticalVolatility", "strikePrice",
   "expirationDate", "daysToExpiration", "expirationType", "lastTradingDay",
   "percentChange", "intrinsicValue", "extrinsicValue", "optionRoot",
   "high52Week", "low52Week", "inTheMoney"]

/-- The columns cast to Int64. -/
def intCols : List String :=
  ["bidSize", "askSize", "lastSize", "totalVolume", "quoteTimeInLong",
   "openInterest", "lastTradingDay"]

/-- The columns cast to Float64. -/
def floatCols : List String :=
  ["bid", "ask", "last", "mark", "highPrice", "lowPrice", "openPrice",
   "closePrice", "netChange", "volatility", "delta", "gamma", "theta", "vega",
   "rho", "theoreticalOptionValue", "theoreticalVolatility", "strikePrice",
   "daysToExpiration", "percentChange", "intrinsicValue", "extrinsicValue",
   "high52Week", "low52Week"]

/-- The cast applied to a cell of the named column; columns outside the
four cast families pass through unchanged. -/
def castFor (c : String) (v : Value) : Option Value :=
  if c ∈ intCols then castInt64 v
  else if c ∈ floatCols then castFloat64 v
  else if c = "inTheMoney" then castBoolean v
  else if c = "expirationDate" then strToDatetime v
  else some v

/-- Casting one whole column, aborting the batch at the first cell the
cast rejects. -/
def castColumn (c : String) (vs : List Value) : Except TransformError (List Value) :=
  mapE (fun v =>
    match castFor c v with
    | some w => Except.ok w
    | none => Except.error (TransformError.castFailed c)) vs

/-- The leading index-marker strip: Python ticker.replace with a one
character pattern and empty replacement removes every dollar sign. -/
def stripDollar (s : String) : String :=
  String.mk (s.data.filter (fun c => !(c == '$')))

/-- pl.col symbol str.slice with offset -15: the suffix of the string of
length at most 15. -/
def sliceNeg15 (s : String) : String :=
  String.mk (s.data.drop (s.data.length - 15))

/-- The row-key expression on one symbol cell: stripped ticker, then the
15 character symbol suffix, a point, and the epoch seconds.  A null
symbol propagates to a null key; the str accessor fails on any other
non-string cell. -/
def mkKey (t : String) (epoch : Int) : Value → Except TransformError Value
  | Value.str s =>
      Except.ok (Value.str (t ++ sliceNeg15 s ++ "." ++ toString epoch))
  | Value.null => Except.ok Value.null
  | _ => Except.error TransformError.keyNotString

/-- The SQL-keyword renames applied at the end of the transform. -/
def rename1 (c : String) : String :=
  if c = "description" then "theDescription"
  else if c = "last" then "lastPrice"
  else c

/-- Renaming the columns of a frame. -/
def renameCols (f : Frame) : Frame := f.map (fun p => (rename1 p.1, p.2))

/-- The transform stage.  The epoch seconds and the Eastern wall-clock
datetime are each read once per invocation and passed in here; the
ticker is stripped of dollar signs, the records become a frame, the
fixed columns are selected, cast, and extended with the three derived
columns, and the SQL-keyword renames are applied.  Python hands the
absence sentinel None straight to this stage, and pl.DataFrame turns
None into the same empty frame as the empty record list. -/
def transform (epoch : Int) (nowDT : Int) (ticker : String)
    (contracts : List RawContract) : Except TransformError Frame :=
  match selectCols (buildFrame contracts) endColumns with
  | Except.error e => Except.error e
  | Except.ok sel =>
    match mapE (fun cv => (castColumn cv.1 cv.2).map (fun vs => (cv.1, vs))) sel with
    | Except.error e => Except.error e
    | Except.ok casted =>
      match getCol sel "symbol" with
      | Except.error e => Except.error e
      | Except.ok symvs =>
        match mapE (mkKey (stripDollar ticker) epoch) symvs with
        | Except.error e => Except.error e
        | Except.ok keyvs =>
          Except.ok (renameCols casted ++
            [("ticker", List.replicate contracts.length (Value.str (stripDollar ticker))),
             ("theDatetime",
               List.replicate contracts.length (Value.datetime nowDT)),
             ("theKey", keyvs)])

/-- The frame carried by a successful transform result. -/
def getFrame (r : Except TransformError Frame) : Frame := r.toOption.getD []

/-- The fixed output schema: the selected columns after the two renames,
then the three derived columns. -/
def finalSchema : List String :=
  ["putCall", "symbol", "theDescription", "bid", "ask", "lastPrice", "mark",
   "bidSize", "askSize", "bidAskSize", "lastSize", "highPrice", "lowPrice",
   "openPrice", "closePrice", "totalVolume", "quoteTimeInLong", "netChange",
   "volatility", "delta", "gamma", "theta", "vega", "rho", "openInterest",
   "theoreticalOptionValue", "theoreticalVolatility", "strikePrice",
   "expirationDate", "daysToExpiration", "expirationType", "lastTradingDay",
   "percentChange", "intrinsicValue", "extrinsicValue", "optionRoot",
   "high52Week", "low52Week", "inTheMoney", "ticker", "theDatetime", "theKey"]

/-- A record batch from which some fixed column is wholly absent: the
schema inferred from the records misses a required column, so the
select fails. -/
def missingColumn (rs : List RawContract) : Prop :=
  ∃ c ∈ endColumns, c ∉ frameKeys rs

/-- A record batch carrying, in some fixed column, a cell the declared
cast rejects. -/
def uncoercibleValue (rs : List RawContract) : Prop :=
  ∃ c ∈ endColumns, ∃ vs, getCol (buildFrame rs) c = Except.ok vs ∧
    ∃ v ∈ vs, castFor c v = none

/-! ### The orchestrator and the per-ticker concurrency model -/

/-- The three pipeline stages an etl run can invoke. -/
inductive Stage where
  | extractS : Stage
  | transformS : Stage
  | loadS : Stage
deriving DecidableEq

/-- Errors an etl run can end with: a transform failure or a load
failure (connection, constraint, partial batch — opaque here). -/
inductive EtlError where
  | transformError (e : TransformError) : EtlError
  | loadError : EtlError
deriving DecidableEq

/-- The outcome of one per-ticker etl run: which stages were invoked, in
order, and either the number of rows handed to the loader or the
exception the run raised. -/
structure EtlRun where
  invoked : List Stage
  result : Except EtlError Nat

/-- Height of a frame: the length of its first column (0 for the empty
frame). -/
def numRows (f : Frame) : Nat := ((f.head?).map (fun p => p.2.length)).getD 0

/-- One etl run for one ticker.  The source chains the three stages
unconditionally: whatever extract returned — including the absence
sentinel None — is handed to transform; only an exception raised by
transform keeps load from running.  The destination store is opaque, so
a load-side failure is a parameter of the run. -/
def etl (api : ApiOutcome) (ticker : String) (epoch nowDT : Int)
    (loadFails : Bool) : EtlRun :=
  match transform epoch nowDT ticker (((extract api).result).getD []) with
  | Except.error e =>
      ⟨[Stage.extractS, Stage.transformS], Except.error (EtlError.transformError e)⟩
  | Except.ok f =>
      if loadFails then
        ⟨[Stage.extractS, Stage.transformS, Stage.loadS], Except.error EtlError.loadError⟩
      else
        ⟨[Stage.extractS, Stage.transformS, Stage.loadS], Except.ok (numRows f)⟩

/-- The fixture of one per-ticker task of the driver: its ticker, what
its one network call returns, and whether its load raises. -/
structure TickerRun where
  ticker : String
  api : ApiOutcome
  loadFails : Bool

/-- The etl outcome of one task fixture. -/
def taskOutcome (epoch nowDT : Int) (t : TickerRun) : EtlRun :=
  etl t.api t.ticker epoch nowDT t.loadFails

/-- The driver cycle under the cooperative asyncio model.  Every task
suspends exactly once, at its network call; a schedule lists the order
in which those calls complete and their tasks resume.  A resumed task
runs its remaining pipeline synchronously to completion.  gather is
invoked without exception isolation, so the first exception a resumed
task raises propagates through gather and main, and asyncio.run then
cancels every task that has not yet resumed.  The returned indices are
the tasks whose load completed, in resumption order. -/
def runCycle (tasks : List TickerRun) (epoch nowDT : Int) : List Nat → List Nat
  | [] => []
  | i :: rest =>
    match tasks.get? i with
    | none => runCycle tasks epoch nowDT rest
    | some t =>
      match (taskOutcome epoch nowDT t).result with
      | Except.ok _ => i :: runCycle tasks epoch nowDT rest
      | Except.error _ => []

/-! ### Concrete fixtures used by the witnesses and counterexamples -/

/-- A fully populated call-contract record carrying every selected
column with a value of its payload type. -/
def rCall : RawContract :=
  [("putCall", Value.str "CALL"),
   ("symbol", Value.str "SPY   240621C00100000"),
   ("description", Value.str "SPY Jun 21 2024 100 Call"),
   ("bid", Value.float 1),
   ("ask", Value.float 2),
   ("last", Value.float (3/2)),
   ("mark", Value.float (3/2)),
   ("bidSize", Value.int 10),
   ("askSize", Value.int 12),
   ("bidAskSize", Value.str "10X12"),
   ("lastSize", Value.int 1),
   ("highPrice", Value.float 2),
   ("lowPrice", Value.float 1),
   ("openPrice", Value.float (5/4)),
   ("closePrice", Value.float (7/4)),
   ("totalVolume", Value.int 500),
   ("quoteTimeInLong", Value.int 1718900000000),
   ("netChange", Value.float (-1/4)),
   ("volatility", Value.float 20),
   ("delta", Value.float (1/2)),
   ("gamma", Value.float (1/10)),
   ("theta", Value.float (-1/20)),
   ("vega", Value.float (1/8)),
   ("rho", Value.float (1/100)),
   ("openInterest", Value.int 1000),
   ("theoreticalOptionValue", Value.float (3/2)),
   ("theoreticalVolatility", Value.float 19),
   ("strikePrice", Value.float 100),
   ("expirationDate", Value.str "2024-06-21T00:00:00+0000"),
   ("daysToExpiration", Value.int 0),
   ("expirationType", Value.str "S"),
   ("lastTradingDay", Value.int 1718946000000),
   ("percentChange", Value.float (-5)),
   ("intrinsicValue", Value.float (1/2)),
   ("extrinsicValue", Value.float 1),
   ("optionRoot", Value.str "SPY"),
   ("high52Week", Value.float 3),
   ("low52Week", Value.float (1/2)),
   ("inTheMoney", Value.bool true)]

/-- The matching fully populated put-contract record. -/
def rPut : RawContract :=
  rCall.map (fun p =>
    if p.1 = "putCall" then (p.1, Value.str "PUT")
    else if p.1 = "symbol" then (p.1, Value.str "SPY   240621P00100000")
    else if p.1 = "inTheMoney" then (p.1, Value.bool false)
    else p)

/-- The call record with its delta field removed. -/
def rNoDelta : RawContract := rCall.filter (fun p => !(p.1 == "delta"))

/-- The call record with its inTheMoney field removed. -/
def rNoITM : RawContract := rCall.filter (fun p => !(p.1 == "inTheMoney"))

/-- The call map of the well-formed fixture response: one expiration,
one strike, one contract entry. -/
def okCallMap : ExpMap := [("2024-06-21:0", [("100.0", [rCall])])]

/-- The matching put map of the fixture response. -/
def okPutMap : ExpMap := [("2024-06-21:0", [("100.0", [rPut])])]

/-- A well-formed 200 response carrying one call and one put at a single
expiration and strike. -/
def okResponse : OptionChainResponse := ⟨200, some (okCallMap, okPutMap)⟩

/-- A rate-limited response. -/
def rlResponse : OptionChainResponse := ⟨429, some ([], [])⟩

/-- The three-ticker fixture of Scenario D: one ticker succeeds, one
receives the rate-limit sentinel, one fails at load. -/
def scenarioTasks : List TickerRun :=
  [⟨"SPY", ApiOutcome.response okResponse, false⟩,
   ⟨"QQQ", ApiOutcome.response rlResponse, false⟩,
   ⟨"$SPX", ApiOutcome.response okResponse, true⟩]

/-! ### Helper lemmas -/

theorem mapE_ok_forall₂ {α β ε : Type} (f : α → Except ε β) :
    ∀ {xs : List α} {ys : List β}, mapE f xs = Except.ok ys →
      List.Forall₂ (fun x y => f x = Except.ok y) xs ys := by
  intro xs
  induction xs with
  | nil =>
    intro ys h
    simp [mapE] at h
    subst h
    exact List.Forall₂.nil
  | cons x xs ih =>
    intro ys h
    unfold mapE at h
    rcases hfx : f x with e | y
    · rw [hfx] at h; cases h
    · rw [hfx] at h
      rcases hrest : mapE f xs with e | ys'
      · rw [hrest] at h; cases h
      · rw [hrest] at h
        injection h with h
        subst h
        exact List.Forall₂.cons hfx (ih hrest)

theorem mapE_error_of_mem {α β ε : Type} (f : α → Except ε β) {xs : List α}
    {x : α} {e : ε} (hx : x ∈ xs) (hf : f x = Except.error e) :
    ∃ e', mapE f xs = Except.error e' := by
  induction xs with
  | nil => cases hx
  | cons hd tl ih =>
    rcases hfx : f hd with e'' | y
    · exact ⟨e'', by simp [mapE, hfx]⟩
    · rcases List.mem_cons.mp hx with rfl | hmem
      · rw [hfx] at hf; cases hf
      · obtain ⟨e', he'⟩ := ih hmem
        exact ⟨e', by simp [mapE, hfx, he']⟩

theorem forall₂_mem_left {α β : Type} {R : α → β → Prop} :
    ∀ {xs : List α} {ys : List β}, List.Forall₂ R xs ys →
      ∀ {x}, x ∈ xs → ∃ y ∈ ys, R x y := by
  intro xs ys h
  induction h with
  | nil => intro x hx; cases hx
  | cons hr _ ih =>
    intro x hx
    rcases List.mem_cons.mp hx with rfl | hmem
    · exact ⟨_, List.mem_cons_self _ _, hr⟩
    · obtain ⟨y, hy, hxy⟩ := ih hmem
      exact ⟨y, List.mem_cons_of_mem _ hy, hxy⟩

theorem forall₂_mem_right {α β : Type} {R : α → β → Prop} :
    ∀ {xs : List α} {ys : List β}, List.Forall₂ R xs ys →
      ∀ {y}, y ∈ ys → ∃ x ∈ xs, R x y := by
  intro xs ys h
  induction h with
  | nil => intro y hy; cases hy
  | cons hr _ ih =>
    intro y hy
    rcases List.mem_cons.mp hy with rfl | hmem
    · exact ⟨_, List.mem_cons_self _ _, hr⟩
    · obtain ⟨x, hx, hxy⟩ := ih hmem
      exact ⟨x, List.mem_cons_of_mem _ hx, hxy⟩

theorem map_eq_of_forall₂ {α β γ : Type} {R : α → β → Prop} (g : α → γ) (g' : β → γ)
    {xs : List α} {ys : List β} (h : List.Forall₂ R xs ys)
    (hg : ∀ a b, R a b → g' b = g a) : ys.map g' = xs.map g := by
  induction h with
  | nil => rfl
  | cons hr _ ih => simp [ih, hg _ _ hr]

theorem except_map_ok {ε α β : Type} (g : α → β) (r : Except ε α) (b : β)
    (h : r.map g = Except.ok b) : ∃ a, r = Except.ok a ∧ b = g a := by
  cases r with
  | error e => cases h
  | ok a => exact ⟨a, rfl, by injection h with h; exact h.symm⟩

theorem selectCols_names {df : Frame} {cols : List String} {sel : Frame}
    (h : selectCols df cols = Except.ok sel) : sel.map Prod.fst = cols := by
  have h2 := mapE_ok_forall₂ _ h
  have h3 := map_eq_of_forall₂ (fun c => c) Prod.fst h2 ?_
  · simpa using h3
  · intro c y hy
    obtain ⟨vs, _, rfl⟩ := except_map_ok _ _ _ hy
    rfl

theorem selectCols_mem {df : Frame} {cols : List String} {sel : Frame}
    (h : selectCols df cols = Except.ok sel) {c : String} (hc : c ∈ cols) :
    ∃ vs, (c, vs) ∈ sel ∧ getCol df c = Except.ok vs := by
  obtain ⟨y, hy, hr⟩ := forall₂_mem_left (mapE_ok_forall₂ _ h) hc
  obtain ⟨vs, hvs, rfl⟩ := except_map_ok _ _ _ hr
  exact ⟨vs, hy, hvs⟩

theorem getCol_mem {f : Frame} {c : String} {vs : List Value}
    (h : getCol f c = Except.ok vs) : (c, vs) ∈ f := by
  unfold getCol at h
  rcases hf : f.find? (fun p => p.1 == c) with _ | p
  · rw [hf] at h; cases h
  · rw [hf] at h
    injection h with h
    have hmem := List.mem_of_find?_eq_some hf
    have hbeq : p.1 = c := by
      have := List.find?_some hf
      simpa using this
    have : p = (c, vs) := by
      cases p; simp_all
    rw [this] at hmem
    exact hmem

theorem getCol_buildFrame_missing {records : List RawContract} {c : String}
    (hc : c ∉ frameKeys records) :
    getCol (buildFrame records) c = Except.error (TransformError.columnNotFound c) := by
  unfold getCol
  have hnone : (buildFrame records).find? (fun p => p.1 == c) = none := by
    rw [List.find?_eq_none]
    intro p hp
    unfold buildFrame at hp
    obtain ⟨k, hk, rfl⟩ := List.mem_map.mp hp
    simp only [beq_iff_eq]
    intro hkc
    exact hc (hkc ▸ hk)
  rw [hnone]

theorem transform_ok_parts {epoch nowDT : Int} {ticker : String}
    {rs : List RawContract} {f : Frame}
    (h : transform epoch nowDT ticker rs = Except.ok f) :
    ∃ sel casted symvs keyvs,
      selectCols (buildFrame rs) endColumns = Except.ok sel ∧
      mapE (fun cv => (castColumn cv.1 cv.2).map (fun vs => (cv.1, vs))) sel
        = Except.ok casted ∧
      getCol sel "symbol" = Except.ok symvs ∧
      mapE (mkKey (stripDollar ticker) epoch) symvs = Except.ok keyvs ∧
      f = renameCols casted ++
        [("ticker", List.replicate rs.length (Value.str (stripDollar ticker))),
         ("theDatetime", List.replicate rs.length (Value.datetime nowDT)),
         ("theKey", keyvs)] := by
  unfold transform at h
  split at h
  · cases h
  rename_i sel h1
  split at h
  · cases h
  rename_i casted h2
  split at h
  · cases h
  rename_i symvs h3
  split at h
  · cases h
  rename_i keyvs h4
  injection h with h
  exact ⟨sel, casted, symvs, keyvs, h1, h2, h3, h4, h.symm⟩

theorem isOk_exists {ε α : Type} {r : Except ε α} (h : r.isOk = true) :
    ∃ a, r = Except.ok a := by
  cases r with
  | error e => cases h
  | ok a => exact ⟨a, rfl⟩

theorem castFor_symbol (v : Value) : castFor "symbol" v = some v := by
  unfold castFor
  rw [if_neg (by decide), if_neg (by decide), if_neg (by decide),
    if_neg (by decide)]

theorem castFor_inTheMoney (v : Value) : castFor "inTheMoney" v = castBoolean v := by
  unfold castFor
  rw [if_neg (by decide), if_neg (by decide), if_pos rfl]

theorem castColumn_passthrough {c : String} (hc : ∀ v, castFor c v = some v)
    (vs : List Value) : castColumn c vs = Except.ok vs := by
  induction vs with
  | nil => rfl
  | cons v tl ih =>
    unfold castColumn at ih ⊢
    unfold mapE
    rw [hc v, ih]

theorem castBoolean_shape {v w : Value} (h : castBoolean v = some w) :
    w = Value.null ∨ ∃ b, w = Value.bool b := by
  cases v with
  | null => injection h with h; exact Or.inl h.symm
  | bool b => injection h with h; exact Or.inr ⟨b, h.symm⟩
  | int n => injection h with h; exact Or.inr ⟨_, h.symm⟩
  | float q => injection h with h; exact Or.inr ⟨_, h.symm⟩
  | str s => cases h
  | datetime t => cases h

theorem rename1_preimage {c d : String} (h : rename1 c = d)
    (hd1 : d ≠ "theDescription") (hd2 : d ≠ "lastPrice") : c = d := by
  unfold rename1 at h
  by_cases h1 : c = "description"
  · rw [if_pos h1] at h; exact absurd h.symm hd1
  · rw [if_neg h1] at h
    by_cases h2 : c = "last"
    · rw [if_pos h2] at h; exact absurd h.symm hd2
    · rw [if_neg h2] at h; exact h

theorem casted_parts {sel casted : Frame}
    (h : mapE (fun cv => (castColumn cv.1 cv.2).map (fun vs => (cv.1, vs))) sel
      = Except.ok casted) :
    List.Forall₂ (fun cv dv => dv.1 = cv.1 ∧ castColumn cv.1 cv.2 = Except.ok dv.2)
      sel casted := by
  have h2 := mapE_ok_forall₂ _ h
  refine List.Forall₂.imp ?_ h2
  intro cv dv hr
  obtain ⟨vs, hvs, rfl⟩ := except_map_ok _ _ _ hr
  exact ⟨rfl, hvs⟩

theorem casted_names {sel casted : Frame}
    (h : mapE (fun cv => (castColumn cv.1 cv.2).map (fun vs => (cv.1, vs))) sel
      = Except.ok casted) : casted.map Prod.fst = sel.map Prod.fst :=
  map_eq_of_forall₂ Prod.fst Prod.fst (casted_parts h) (fun _ _ hr => hr.1)

theorem renameCols_names (f : Frame) :
    (renameCols f).map Prod.fst = (f.map Prod.fst).map rename1 := by
  unfold renameCols
  simp

theorem transform_frame_names {epoch nowDT : Int} {ticker : String}
    {rs : List RawContract} {f : Frame}
    (h : transform epoch nowDT ticker rs = Except.ok f) :
    f.map Prod.fst = endColumns.map rename1 ++ ["ticker", "theDatetime", "theKey"] := by
  obtain ⟨sel, casted, symvs, keyvs, h1, h2, _, _, hf⟩ := transform_ok_parts h
  subst hf
  simp only [List.map_append, renameCols_names, casted_names h2, selectCols_names h1]
  rfl

theorem flattenStrikes_of_wf (ss : List (String × List RawContract))
    (h : ∀ st ∈ ss, st.2 ≠ []) :
    ∃ l, flattenStrikes ss = some l ∧ l.length = ss.length := by
  induction ss with
  | nil => exact ⟨[], rfl, rfl⟩
  | cons hd tl ih =>
    obtain ⟨l, hl, hlen⟩ := ih (fun st hst => h st (List.mem_cons_of_mem _ hst))
    obtain ⟨c, cs, hcs⟩ : ∃ c cs, hd.2 = c :: cs := by
      cases hhd : hd.2 with
      | nil => exact absurd hhd (h hd (List.mem_cons_self _ _))
      | cons c cs => exact ⟨c, cs, rfl⟩
    refine ⟨c :: l, ?_, by simp [hlen]⟩
    unfold flattenStrikes
    rw [hcs, hl]

theorem flattenExpMap_of_wf (m : ExpMap) (h : wellFormedMap m) :
    ∃ l, flattenExpMap m = some l ∧ l.length = strikeCount m := by
  induction m with
  | nil => exact ⟨[], rfl, rfl⟩
  | cons ex tl ih =>
    obtain ⟨l, hl, hlen⟩ := ih (fun e he st hst => h e (List.mem_cons_of_mem _ he) st hst)
    obtain ⟨here, hh, hhlen⟩ :=
      flattenStrikes_of_wf ex.2 (fun st hst => h ex (List.mem_cons_self _ _) st hst)
    refine ⟨here ++ l, ?_, by simp [strikeCount, hhlen, hlen, List.map_cons]⟩
    unfold flattenExpMap
    rw [hh, hl]

theorem transform_nil (epoch nowDT : Int) (ticker : String) :
    transform epoch nowDT ticker [] =
      Except.error (TransformError.columnNotFound "putCall") := rfl

theorem etl_of_sentinel {api : ApiOutcome} (ticker : String) (epoch nowDT : Int)
    (loadFails : Bool) (h : (extract api).result = none) :
    etl api ticker epoch nowDT loadFails =
      ⟨[Stage.extractS, Stage.transformS],
       Except.error (EtlError.transformError (TransformError.columnNotFound "putCall"))⟩ := by
  unfold etl
  rw [h]
  rfl

/-! ### The claims -/

/-- C1, counterexample to the claim as stated.  On a rate-limited cycle
the extractor yields the absence sentinel, yet the orchestrator still
invokes the normalization stage on that sentinel — the source etl
chains extract, transform and load unconditionally — so "normalize is
never invoked on the sentinel" is false. -/
theorem c1_counterexample :
    (extract (ApiOutcome.response rlResponse)).result = none ∧
    Stage.transformS ∈
      (etl (ApiOutcome.response rlResponse) "QQQ" 5 7 false).invoked := by
  exact ⟨rfl, by decide⟩

/-- C1 (amended): whenever the extractor yields the absence sentinel,
the orchestrator still invokes normalize on it; normalize then raises a
column-not-found failure on the resulting empty frame, so the load
stage is never invoked and the run ends in a transform error — no rows
are loaded for that ticker in that cycle. -/
theorem c1_sentinel_aborts_before_load (api : ApiOutcome) (ticker : String)
    (epoch nowDT : Int) (loadFails : Bool)
    (h : (extract api).result = none) :
    (etl api ticker epoch nowDT loadFails).invoked
        = [Stage.extractS, Stage.transformS] ∧
    Stage.loadS ∉ (etl api ticker epoch nowDT loadFails).invoked ∧
    ∃ e, (etl api ticker epoch nowDT loadFails).result
        = Except.error (EtlError.transformError e) := by
  rw [etl_of_sentinel ticker epoch nowDT loadFails h]
  exact ⟨rfl, by decide, ⟨_, rfl⟩⟩

/-- C1 witness: the amended theorem applied to the rate-limited fixture. -/
theorem c1_witness :
    (extract (ApiOutcome.response rlResponse)).result = none ∧
    ((etl (ApiOutcome.response rlResponse) "QQQ" 5 7 false).invoked
        = [Stage.extractS, Stage.transformS] ∧
     Stage.loadS ∉ (etl (ApiOutcome.response rlResponse) "QQQ" 5 7 false).invoked ∧
     ∃ e, (etl (ApiOutcome.response rlResponse) "QQQ" 5 7 false).result
        = Except.error (EtlError.transformError e)) :=
  ⟨rfl, c1_sentinel_aborts_before_load (ApiOutcome.response rlResponse) "QQQ" 5 7 false rfl⟩

/-- C2: for a well-formed response (a non-rate-limited status, a body
carrying both maps, and at least one contract entry at every strike),
extract succeeds and the flattened sequence has exactly one entry per
strike per expiration per side: its length is the sum of the strike
counts of the call map and of the put map. -/
theorem c2_flatten_length (r : OptionChainResponse) (cm pm : ExpMap)
    (h429 : r.status_code ≠ 429) (hb : r.body = some (cm, pm))
    (hcm : wellFormedMap cm) (hpm : wellFormedMap pm) :
    ∃ l, (extract (ApiOutcome.response r)).result = some l ∧
      l.length = strikeCount cm + strikeCount pm := by
  obtain ⟨cs, hcs, hcl⟩ := flattenExpMap_of_wf cm hcm
  obtain ⟨ps, hps, hpl⟩ := flattenExpMap_of_wf pm hpm
  refine ⟨cs ++ ps, ?_, by simp [hcl, hpl]⟩
  simp only [extract]
  rw [if_neg h429]
  simp only [hb, hcs, hps]

/-- C2 witness: the single-expiration single-strike fixture, one call
and one put. -/
theorem c2_witness :
    (okResponse.status_code ≠ 429 ∧ wellFormedMap okCallMap ∧ wellFormedMap okPutMap) ∧
    ∃ l, (extract (ApiOutcome.response okResponse)).result = some l ∧
      l.length = strikeCount okCallMap + strikeCount okPutMap :=
  ⟨⟨by decide, by decide, by decide⟩,
   c2_flatten_length okResponse okCallMap okPutMap (by decide) rfl (by decide) (by decide)⟩

/-- C6: a 429 response makes extract sleep the fixed 5 seconds and
return the absence sentinel; no traceback is printed and exactly one
request was issued within the call. -/
theorem c6_rate_limit (r : OptionChainResponse) (h : r.status_code = 429) :
    extract (ApiOutcome.response r) = ⟨none, [5], false, 1⟩ := by
  simp only [extract]
  rw [if_pos h]

/-- C6 witness: the rate-limited fixture. -/
theorem c6_witness :
    rlResponse.status_code = 429 ∧
    extract (ApiOutcome.response rlResponse) = ⟨none, [5], false, 1⟩ :=
  ⟨rfl, c6_rate_limit rlResponse rfl⟩

/-- C7: on any non-rate-limit failure (network error, malformed body,
or an empty strike entry making the index raise), extract catches the
exception, prints the traceback, sleeps the 1 second backoff and
returns the absence sentinel instead of propagating, after the one
request of the call. -/
theorem c7_other_failures (api : ApiOutcome) (h : otherFailure api) :
    extract api = ⟨none, [1], true, 1⟩ := by
  cases api with
  | networkError => rfl
  | response r =>
    obtain ⟨h429, hbody⟩ := h
    simp only [extract]
    rw [if_neg h429]
    rcases hbody with hb | ⟨cm, pm, hb, hfl⟩
    · simp only [hb]
    · rcases hcm : flattenExpMap cm with _ | cs
      · simp only [hb, hcm]
      · rcases hfl with hc | hp
        · rw [hcm] at hc; cases hc
        · simp only [hb, hcm, hp]

/-- C7 witness: the network-error outcome. -/
theorem c7_witness :
    otherFailure ApiOutcome.networkError ∧
    extract ApiOutcome.networkError = ⟨none, [1], true, 1⟩ :=
  ⟨trivial, c7_other_failures ApiOutcome.networkError trivial⟩

/-- C10: on the empty record sequence the normalizer does not return an
empty table of the fixed schema: the frame built from zero records has
no columns, so the select of the first fixed column raises
column-not-found and the whole call fails. -/
theorem c10_empty_input_fails (epoch nowDT : Int) (ticker : String) :
    transform epoch nowDT ticker [] =
      Except.error (TransformError.columnNotFound "putCall") := rfl

/-- C3: in every successfully normalized table, the ingestion-timestamp
column holds the single per-invocation capture time at every row, and
the key column is row-aligned with the symbol column so that every row
whose symbol cell is a string has the key
stripped-ticker ++ 15-char-symbol-suffix ++ point ++ epoch-seconds —
in particular all rows of one invocation share the one epoch suffix
and the one ingestion timestamp. -/
theorem c3_row_key_shape (epoch nowDT : Int) (ticker : String)
    (rs : List RawContract)
    (h : (transform epoch nowDT ticker rs).isOk = true) :
    (∀ p ∈ getFrame (transform epoch nowDT ticker rs), p.1 = "theDatetime" →
       p.2 = List.replicate rs.length (Value.datetime nowDT)) ∧
    ∃ symvs keyvs,
      ("symbol", symvs) ∈ getFrame (transform epoch nowDT ticker rs) ∧
      ("theKey", keyvs) ∈ getFrame (transform epoch nowDT ticker rs) ∧
      List.Forall₂ (fun sv kv => ∀ s : String, sv = Value.str s →
          kv = Value.str (stripDollar ticker ++ sliceNeg15 s ++ "." ++ toString epoch))
        symvs keyvs := by
  obtain ⟨f, heq⟩ := isOk_exists h
  have hgf : getFrame (transform epoch nowDT ticker rs) = f := by
    rw [heq]; rfl
  rw [hgf]
  obtain ⟨sel, casted, symvs, keyvs, h1, h2, h3, h4, hf⟩ := transform_ok_parts heq
  subst hf
  constructor
  · intro p hp hname
    rcases List.mem_append.mp hp with hL | hR
    · exfalso
      have hmm : p.1 ∈ (renameCols casted).map Prod.fst :=
        List.mem_map_of_mem Prod.fst hL
      rw [renameCols_names, casted_names h2, selectCols_names h1, hname] at hmm
      exact absurd hmm (by decide)
    · rcases List.mem_cons.mp hR with rfl | hR2
      · have hh : ("ticker" : String) = "theDatetime" := hname
        exact absurd hh (by decide)
      rcases List.mem_cons.mp hR2 with rfl | hR3
      · rfl
      rcases List.mem_cons.mp hR3 with rfl | hR4
      · have hh : ("theKey" : String) = "theDatetime" := hname
        exact absurd hh (by decide)
      · cases hR4
  · have hsymsel : ("symbol", symvs) ∈ sel := getCol_mem h3
    obtain ⟨dv, hdvmem, hdfst, hdcast⟩ :
        ∃ dv ∈ casted, dv.1 = "symbol" ∧ castColumn "symbol" symvs = Except.ok dv.2 := by
      obtain ⟨dv, hdvmem, hrel⟩ := forall₂_mem_left (casted_parts h2) hsymsel
      exact ⟨dv, hdvmem, hrel.1, hrel.2⟩
    have hdv2 : dv.2 = symvs := by
      rw [castColumn_passthrough castFor_symbol symvs] at hdcast
      injection hdcast with hh
      exact hh.symm
    refine ⟨symvs, keyvs, ?_, ?_, ?_⟩
    · apply List.mem_append_left
      unfold renameCols
      refine List.mem_map.mpr ⟨dv, hdvmem, ?_⟩
      rw [hdfst, hdv2]
      rfl
    · apply List.mem_append_right
      simp
    · refine List.Forall₂.imp ?_ (mapE_ok_forall₂ _ h4)
      intro sv kv hmk s hs
      subst hs
      unfold mkKey at hmk
      injection hmk with hmk
      exact hmk.symm

/-- C3 witness: the theorem applied to the single-contract fixture at
epoch 5, capture time 7, ticker SPX with its index marker. -/
theorem c3_witness :
    ((transform 5 7 "$SPX" [rCall]).isOk = true) ∧
    ((∀ p ∈ getFrame (transform 5 7 "$SPX" [rCall]), p.1 = "theDatetime" →
        p.2 = List.replicate [rCall].length (Value.datetime 7)) ∧
     ∃ symvs keyvs,
       ("symbol", symvs) ∈ getFrame (transform 5 7 "$SPX" [rCall]) ∧
       ("theKey", keyvs) ∈ getFrame (transform 5 7 "$SPX" [rCall]) ∧
       List.Forall₂ (fun sv kv => ∀ s : String, sv = Value.str s →
           kv = Value.str (stripDollar "$SPX" ++ sliceNeg15 s ++ "." ++ toString (5 : Int)))
         symvs keyvs) :=
  ⟨by decide, c3_row_key_shape 5 7 "$SPX" [rCall] (by decide)⟩

/-- C4, counterexample to the claim as stated.  A batch in which one
record omits the in-the-money flag normalizes successfully — polars
fills the missing cell with null, which the Boolean cast keeps — so the
in-the-money column of a successfully normalized table can contain a
null, which is not a boolean value. -/
theorem c4_counterexample :
    (transform 5 7 "SPY" [rCall, rNoITM]).isOk = true ∧
    ("inTheMoney", [Value.bool true, Value.null]) ∈
      getFrame (transform 5 7 "SPY" [rCall, rNoITM]) ∧
    ∀ b : Bool, Value.null ≠ Value.bool b := by
  refine ⟨by decide, by decide, by decide⟩

/-- C4 (amended): every successfully normalized table carries exactly
the fixed 42-column schema, in the fixed order, and every cell of the
in-the-money column lies in the Boolean domain — it is a boolean or the
null a record that omitted the flag gave rise to. -/
theorem c4_schema_and_flag_domain (epoch nowDT : Int) (ticker : String)
    (rs : List RawContract)
    (h : (transform epoch nowDT ticker rs).isOk = true) :
    (getFrame (transform epoch nowDT ticker rs)).map Prod.fst = finalSchema ∧
    ∀ p ∈ getFrame (transform epoch nowDT ticker rs), p.1 = "inTheMoney" →
      ∀ v ∈ p.2, v = Value.null ∨ ∃ b, v = Value.bool b := by
  obtain ⟨f, heq⟩ := isOk_exists h
  have hgf : getFrame (transform epoch nowDT ticker rs) = f := by
    rw [heq]; rfl
  rw [hgf]
  constructor
  · rw [transform_frame_names heq]
    decide
  · obtain ⟨sel, casted, symvs, keyvs, h1, h2, h3, h4, hf⟩ := transform_ok_parts heq
    subst hf
    intro p hp hname
    rcases List.mem_append.mp hp with hL | hR
    · obtain ⟨q, hq, hpq⟩ := List.mem_map.mp hL
      obtain ⟨cv, hcvmem, hrel⟩ := forall₂_mem_right (casted_parts h2) hq
      have hq1itm : q.1 = "inTheMoney" := by
        refine rename1_preimage ?_ (by decide) (by decide)
        rw [← hname, ← hpq]
      have hcv1 : cv.1 = "inTheMoney" := by rw [← hrel.1, hq1itm]
      have hcast := hrel.2
      rw [hcv1] at hcast
      have hp2 : p.2 = q.2 := by rw [← hpq]
      rw [hp2]
      intro v hv
      obtain ⟨w, hwmem, hw⟩ := forall₂_mem_right (mapE_ok_forall₂ _ hcast) hv
      rcases hcw : castFor "inTheMoney" w with _ | u
      · rw [hcw] at hw; cases hw
      · rw [hcw] at hw
        injection hw with hw
        rw [castFor_inTheMoney] at hcw
        rcases castBoolean_shape hcw with hu | ⟨b, hu⟩
        · exact Or.inl (hw ▸ hu ▸ rfl)
        · exact Or.inr ⟨b, hw ▸ hu ▸ rfl⟩
    · rcases List.mem_cons.mp hR with rfl | hR2
      · have hh : ("ticker" : String) = "inTheMoney" := hname
        exact absurd hh (by decide)
      rcases List.mem_cons.mp hR2 with rfl | hR3
      · have hh : ("theDatetime" : String) = "inTheMoney" := hname
        exact absurd hh (by decide)
      rcases List.mem_cons.mp hR3 with rfl | hR4
      · have hh : ("theKey" : String) = "inTheMoney" := hname
        exact absurd hh (by decide)
      · cases hR4

/-- C4 witness: the amended theorem applied to the single-contract
fixture. -/
theorem c4_witness :
    ((transform 5 7 "$SPX" [rCall]).isOk = true) ∧
    ((getFrame (transform 5 7 "$SPX" [rCall])).map Prod.fst = finalSchema ∧
     ∀ p ∈ getFrame (transform 5 7 "$SPX" [rCall]), p.1 = "inTheMoney" →
       ∀ v ∈ p.2, v = Value.null ∨ ∃ b, v = Value.bool b) :=
  ⟨by decide, c4_schema_and_flag_domain 5 7 "$SPX" [rCall] (by decide)⟩

/-- C5, counterexample to the claim as stated.  A batch in which one
record lacks the delta field while another supplies it normalizes
successfully: polars infers the delta column from the records that have
it and fills the gap with null, which the Float64 cast keeps.  The
claimed abort happens only when a fixed column is absent from the whole
batch. -/
theorem c5_counterexample :
    "delta" ∈ endColumns ∧
    (∃ r ∈ [rCall, rNoDelta], "delta" ∉ r.map Prod.fst) ∧
    (transform 5 7 "SPY" [rCall, rNoDelta]).isOk = true := by
  refine ⟨by decide, ⟨rNoDelta, List.mem_cons_of_mem _ (List.mem_cons_self _ _), by decide⟩,
    by decide⟩

/-- C5 (amended): normalization aborts the whole batch — producing no
table, and keeping the orchestrator from ever invoking load for that
ticker and cycle — whenever a fixed column is absent from the schema
inferred over the whole batch, or some cell of a fixed column is
rejected by its declared cast. -/
theorem c5_missing_or_untypeable_aborts (epoch nowDT : Int) (ticker : String)
    (rs : List RawContract) (h : missingColumn rs ∨ uncoercibleValue rs) :
    (∃ e, transform epoch nowDT ticker rs = Except.error e) ∧
    ∀ api loadFails, (extract api).result = some rs →
      Stage.loadS ∉ (etl api ticker epoch nowDT loadFails).invoked ∧
      (etl api ticker epoch nowDT loadFails).result.isOk = false := by
  have habort : ∃ e, transform epoch nowDT ticker rs = Except.error e := by
    rcases h with ⟨c, hc, hmiss⟩ | ⟨c, hc, vs, hgc, v, hv, hcast⟩
    · have hgc := getCol_buildFrame_missing hmiss
      have hfc : (fun c => (getCol (buildFrame rs) c).map (fun vs => (c, vs))) c
          = Except.error (TransformError.columnNotFound c) := by
        simp only [hgc]
        rfl
      obtain ⟨e1, hsel⟩ :=
        mapE_error_of_mem (fun c => (getCol (buildFrame rs) c).map (fun vs => (c, vs))) hc hfc
      have hsel1 : selectCols (buildFrame rs) endColumns = Except.error e1 := hsel
      exact ⟨e1, by simp only [transform, hsel1]⟩
    · rcases hselres : selectCols (buildFrame rs) endColumns with e | sel
      · exact ⟨e, by simp only [transform, hselres]⟩
      · obtain ⟨vs2, hmem, hgc2⟩ := selectCols_mem hselres hc
        have hvs : vs2 = vs := by
          rw [hgc] at hgc2
          injection hgc2 with hh
          exact hh.symm
        subst hvs
        have hfv : (fun v => match castFor c v with
              | some w => Except.ok w
              | none => Except.error (TransformError.castFailed c)) v
            = Except.error (TransformError.castFailed c) := by
          simp only [hcast]
        obtain ⟨e1, hcc⟩ :=
          mapE_error_of_mem (fun v => match castFor c v with
            | some w => Except.ok w
            | none => Except.error (TransformError.castFailed c)) hv hfv
        have hcc1 : castColumn c vs2 = Except.error e1 := hcc
        have hfcv : (fun cv => (castColumn cv.1 cv.2).map (fun vs => (cv.1, vs))) (c, vs2)
            = Except.error e1 := by
          simp only [hcc1]
          rfl
        obtain ⟨e2, hmap⟩ :=
          mapE_error_of_mem (fun cv => (castColumn cv.1 cv.2).map (fun vs => (cv.1, vs)))
            hmem hfcv
        exact ⟨e2, by simp only [transform, hselres, hmap]⟩
  refine ⟨habort, ?_⟩
  intro api loadFails hapi
  obtain ⟨e, he⟩ := habort
  have hetl : etl api ticker epoch nowDT loadFails
      = ⟨[Stage.extractS, Stage.transformS],
         Except.error (EtlError.transformError e)⟩ := by
    unfold etl
    rw [hapi]
    simp only [Option.getD_some, he]
  rw [hetl]
  refine ⟨?_, rfl⟩
  intro hh
  have hh2 : Stage.loadS ∈ [Stage.extractS, Stage.transformS] := hh
  exact absurd hh2 (by decide)

/-- C5 witness: the amended theorem applied to a batch whose only
record lacks delta, so the delta column is absent from the whole
batch. -/
theorem c5_witness :
    (missingColumn [rNoDelta] ∨ uncoercibleValue [rNoDelta]) ∧
    ((∃ e, transform 5 7 "SPY" [rNoDelta] = Except.error e) ∧
     ∀ api loadFails, (extract api).result = some [rNoDelta] →
       Stage.loadS ∉ (etl api "SPY" 5 7 loadFails).invoked ∧
       (etl api "SPY" 5 7 loadFails).result.isOk = false) :=
  ⟨Or.inl ⟨"delta", by decide, by decide⟩,
   c5_missing_or_untypeable_aborts 5 7 "SPY" [rNoDelta]
     (Or.inl ⟨"delta", by decide, by decide⟩)⟩

/-- C8: for a ticker beginning with the index marker, every cell of the
derived ticker column of a successfully normalized table is a string
that contains no dollar sign — the replace of the marker removes every
occurrence. -/
theorem c8_ticker_no_marker (epoch nowDT : Int) (ticker : String)
    (rs : List RawContract) (hdollar : ticker.data.head? = some '$')
    (h : (transform epoch nowDT ticker rs).isOk = true) :
    ∀ p ∈ getFrame (transform epoch nowDT ticker rs), p.1 = "ticker" →
      ∀ v ∈ p.2, ∃ u, v = Value.str u ∧ '$' ∉ u.data := by
  obtain ⟨f, heq⟩ := isOk_exists h
  have hgf : getFrame (transform epoch nowDT ticker rs) = f := by
    rw [heq]; rfl
  rw [hgf]
  obtain ⟨sel, casted, symvs, keyvs, h1, h2, h3, h4, hf⟩ := transform_ok_parts heq
  subst hf
  intro p hp hname
  rcases List.mem_append.mp hp with hL | hR
  · exfalso
    have hmm : p.1 ∈ (renameCols casted).map Prod.fst :=
      List.mem_map_of_mem Prod.fst hL
    rw [renameCols_names, casted_names h2, selectCols_names h1, hname] at hmm
    exact absurd hmm (by decide)
  · rcases List.mem_cons.mp hR with rfl | hR2
    · intro v hv
      have hv2 : v = Value.str (stripDollar ticker) := List.eq_of_mem_replicate hv
      refine ⟨stripDollar ticker, hv2, ?_⟩
      intro hd
      have hd2 : '$' ∈ (stripDollar ticker).data := hd
      unfold stripDollar at hd2
      rw [List.mem_filter] at hd2
      simp at hd2
    rcases List.mem_cons.mp hR2 with rfl | hR3
    · have hh : ("theDatetime" : String) = "ticker" := hname
      exact absurd hh (by decide)
    rcases List.mem_cons.mp hR3 with rfl | hR4
    · have hh : ("theKey" : String) = "ticker" := hname
      exact absurd hh (by decide)
    · cases hR4

/-- C8 witness: the theorem applied to the index ticker fixture. -/
theorem c8_witness :
    ("$SPX".data.head? = some '$' ∧ (transform 5 7 "$SPX" [rCall]).isOk = true) ∧
    ∀ p ∈ getFrame (transform 5 7 "$SPX" [rCall]), p.1 = "ticker" →
      ∀ v ∈ p.2, ∃ u, v = Value.str u ∧ '$' ∉ u.data :=
  ⟨⟨by decide, by decide⟩, c8_ticker_no_marker 5 7 "$SPX" [rCall] (by decide) (by decide)⟩

/-- C9, counterexample to the claim as stated.  The driver gathers the
per-ticker tasks without exception isolation, so under the resumption
order in which the rate-limited ticker resumes first, its transform
failure propagates, the cycle ends, and the successful ticker — whose
own run would have succeeded — never persists its rows: one ticker
failure does cancel another ticker run. -/
theorem c9_counterexample :
    List.Perm [1, 0, 2] [0, 1, 2] ∧
    (taskOutcome 5 7 ⟨"SPY", ApiOutcome.response okResponse, false⟩).result.isOk = true ∧
    runCycle scenarioTasks 5 7 [1, 0, 2] = [] := by
  refine ⟨by decide, by decide, by decide⟩

/-- C9 (amended): the driver launches one etl task per configured
ticker and gathers them, but without exception isolation, so a ticker
run persists its rows exactly when it resumes before any failing
sibling: a task with a successful outcome that appears in the schedule
before any task whose outcome is an exception is guaranteed to have its
rows persisted. -/
theorem c9_success_persists_before_failures (tasks : List TickerRun)
    (epoch nowDT : Int) (i : Nat) (t : TickerRun)
    (hget : tasks.get? i = some t)
    (hok : (taskOutcome epoch nowDT t).result.isOk = true) :
    ∀ sched : List Nat, i ∈ sched →
      (∀ j ∈ sched.takeWhile (fun j => !(j == i)), ∀ u, tasks.get? j = some u →
        (taskOutcome epoch nowDT u).result.isOk = true) →
      i ∈ runCycle tasks epoch nowDT sched := by
  intro sched
  induction sched with
  | nil => intro hmem _; cases hmem
  | cons j rest ih =>
    intro hmem hpre
    by_cases hji : j = i
    · subst hji
      obtain ⟨k, hk⟩ := isOk_exists hok
      simp only [runCycle, hget, hk]
      exact List.mem_cons_self _ _
    · have hji2 : i ≠ j := fun hh => hji hh.symm
      have hmem2 : i ∈ rest := by
        rcases List.mem_cons.mp hmem with hh | hh
        · exact absurd hh hji2
        · exact hh
      have hpj : (fun j => !(j == i)) j = true := by simp [hji]
      have htw : (j :: rest).takeWhile (fun j => !(j == i))
          = j :: rest.takeWhile (fun j => !(j == i)) := by
        simp only [List.takeWhile, hpj]
      have hpre2 : ∀ j2 ∈ rest.takeWhile (fun j => !(j == i)), ∀ u,
          tasks.get? j2 = some u → (taskOutcome epoch nowDT u).result.isOk = true := by
        intro j2 hj2 u hu
        refine hpre j2 ?_ u hu
        rw [htw]
        exact List.mem_cons_of_mem _ hj2
      cases hgj : tasks.get? j with
      | none =>
        simp only [runCycle, hgj]
        exact ih hmem2 hpre2
      | some u =>
        have huok := hpre j (by rw [htw]; exact List.mem_cons_self _ _) u hgj
        obtain ⟨k, hk⟩ := isOk_exists huok
        simp only [runCycle, hgj, hk]
        exact List.mem_cons_of_mem _ (ih hmem2 hpre2)

/-- C9 witness: under the schedule in which the successful ticker
resumes first, its rows are persisted. -/
theorem c9_witness :
    (scenarioTasks.get? 0 = some ⟨"SPY", ApiOutcome.response okResponse, false⟩ ∧
     (taskOutcome 5 7 ⟨"SPY", ApiOutcome.response okResponse, false⟩).result.isOk = true ∧
     (0 : Nat) ∈ [0, 1, 2]) ∧
    0 ∈ runCycle scenarioTasks 5 7 [0, 1, 2] :=
  ⟨⟨rfl, by decide, by decide⟩,
   c9_success_persists_before_failures scenarioTasks 5 7 0
     ⟨"SPY", ApiOutcome.response okResponse, false⟩ rfl (by decide) [0, 1, 2]
     (by decide) (fun j hj u hu => absurd hj (List.not_mem_nil j))⟩

end SchwabOptionsData
